import Mathlib

/-!
Shallow embedding of `src/compress.c` (libzseek seekable-archive writer).

The writer groups an input byte stream into independently compressed
frames and records, per finalized frame, a descriptor
`(compressed_size, uncompressed_size, checksum)` in a frame log that is
serialized as the trailing seek table on close.

External collaborators (zstd compression context, libc allocation, stdio
writes, pthread mutex) are modelled by environment values that dictate
the outcome of each fallible call, exactly at the call sites appearing in
the C code.  The writer state (`struct nio_archive_writer`) is carried
explicitly; loops of the source become structural recursion over the
environment's list of per-iteration outcomes, returning `none` when the
supplied list is exhausted before the C loop's exit condition holds.
-/

namespace LibZseek

/-- Destination of a diagnostic message: the standard error stream
(`fprintf(stderr, ...)` / `perror`) or the caller-supplied error buffer
(`errbuf`, which the C code never writes; every `TODO` comment notes it). -/
inductive Chan
  | stderr
  | errbufChan
deriving DecidableEq, Repr

/-- One diagnostic message: its channel and the message prelude used at the
emission site in the C code. -/
structure Diag where
  chan : Chan
  site : String
deriving DecidableEq, Repr

/-- Frame descriptor as recorded by `ZSTD_seekable_logFrame(fl, frame_cm,
frame_uc, 0)`. -/
structure FrameDesc where
  compressed_size : Nat
  uncompressed_size : Nat
  checksum : Nat
deriving DecidableEq, Repr

/-- Checksum argument passed to `ZSTD_seekable_logFrame`: always the literal
`0` in the source. -/
def CHECKSUM_SENTINEL : Nat := 0

/-- State of `struct nio_archive_writer` together with the abstract state of
its owned collaborators: `sinkBytes` counts the bytes written to `fout`,
`cPending` is the amount of compressed data still buffered inside the
`ZSTD_CCtx` (the `rem` value last reported by `ZSTD_compressStream2`). -/
structure Writer where
  frame_uc : Nat
  frame_cm : Nat
  min_frame_size : Nat
  fl : List FrameDesc
  sinkBytes : Nat
  cPending : Nat
deriving DecidableEq, Repr

/-- Outcome of one `ZSTD_compressStream2` invocation as the writer observes
it: either the call reports an error, or it consumes `consumed` input bytes,
deposits `produced` bytes in the output buffer, reports `rem` bytes still
buffered internally, and the `fwrite` that follows either writes everything
(`writeOk = true`) or comes up short. -/
inductive CompressStep
  | err
  | ok (consumed produced rem : Nat) (writeOk : Bool)
deriving DecidableEq, Repr

/-- Drain loop of `end_frame` (`do { ... } while (rem > 0)` with
`ZSTD_e_end`): each iteration adds the produced bytes to `frame_cm` before
the `fwrite`, then writes them to the sink; the loop exits when the
compressor reports `rem == 0`.  Returns `none` if the step list runs out
before the loop exits. -/
def endFrameLoop : Writer → List CompressStep → Option (Bool × Writer × List Diag)
  | _, [] => none
  | w, CompressStep.err :: _ =>
      some (false, w, [⟨Chan.stderr, "end_frame: compress"⟩])
  | w, CompressStep.ok _ produced rem writeOk :: rest =>
      let w1 : Writer := { w with frame_cm := w.frame_cm + produced, cPending := rem }
      if writeOk then
        let w2 : Writer := { w1 with sinkBytes := w1.sinkBytes + produced }
        if rem > 0 then endFrameLoop w2 rest
        else some (true, w2, [])
      else some (false, w1, [⟨Chan.stderr, "end_frame: write to file"⟩])

/-- Environment for one `end_frame` call: outcome of the output-buffer
`malloc`, the per-iteration compressor outcomes, and the outcome of
`ZSTD_seekable_logFrame`. -/
structure EndFrameEnv where
  allocOk : Bool
  steps : List CompressStep
  logOk : Bool
deriving DecidableEq, Repr

/-- `end_frame` (compress.c:115): flush and close the current frame.  On
success it logs `(frame_cm, frame_uc, 0)` to the frame log and resets both
counters; every failure path returns `false` without logging or resetting. -/
def end_frame (w : Writer) (env : EndFrameEnv) : Option (Bool × Writer × List Diag) :=
  if env.allocOk then
    match endFrameLoop w env.steps with
    | none => none
    | some (false, w1, ds) => some (false, w1, ds)
    | some (true, w1, ds) =>
        if env.logOk then
          some (true,
            { w1 with
                fl := w1.fl ++ [⟨w1.frame_cm, w1.frame_uc, CHECKSUM_SENTINEL⟩],
                frame_uc := 0,
                frame_cm := 0 },
            ds)
        else some (false, w1, ds ++ [⟨Chan.stderr, "end_frame: log frame"⟩])
  else some (false, w, [⟨Chan.stderr, "end_frame: allocate output buffer"⟩])

/-- Environment for one `nio_archive_write` call: mutex lock outcome, the
environment of the (possibly taken) `end_frame` call, the output-buffer
`malloc` outcome, the feed-loop compressor outcomes, and the mutex unlock
outcome. -/
structure WriteEnv where
  lockOk : Bool
  ef : EndFrameEnv
  allocOk : Bool
  steps : List CompressStep
  unlockOk : Bool
deriving DecidableEq, Repr

/-- Feed loop of `nio_archive_write` (`do { ... } while (buffin.pos <
buffin.size)` with `ZSTD_e_continue`): `pos`/`len` mirror
`buffin.pos`/`buffin.size`.  The loop exits when the whole input has been
consumed — the `rem` hint is ignored, it only updates the compressor's
buffered amount. -/
def writeLoop : Writer → Nat → Nat → List CompressStep → Option (Bool × Writer × List Diag)
  | _, _, _, [] => none
  | w, _, _, CompressStep.err :: _ =>
      some (false, w, [⟨Chan.stderr, "nio_archive_write: compress"⟩])
  | w, pos, len, CompressStep.ok consumed produced rem writeOk :: rest =>
      let w1 : Writer := { w with frame_cm := w.frame_cm + produced, cPending := rem }
      if writeOk then
        let w2 : Writer := { w1 with sinkBytes := w1.sinkBytes + produced }
        let pos1 := min (pos + consumed) len
        if pos1 < len then writeLoop w2 pos1 len rest
        else some (true, w2, [])
      else some (false, w1, [⟨Chan.stderr, "nio_archive_write: write to file"⟩])

/-- Body of `nio_archive_write` after the threshold check (compress.c
lines 271–318): allocate the output buffer, run the feed loop, add `len` to
`frame_uc` only after the whole input is consumed, unlock. -/
def writeAfterCheck (w : Writer) (len : Nat) (env : WriteEnv) (errbuf : String)
    (ds : List Diag) : Option (Bool × Writer × String × List Diag) :=
  if env.allocOk then
    match writeLoop w 0 len env.steps with
    | none => none
    | some (false, w1, ds2) => some (false, w1, errbuf, ds ++ ds2)
    | some (true, w1, ds2) =>
        let w2 : Writer := { w1 with frame_uc := w1.frame_uc + len }
        if env.unlockOk then some (true, w2, errbuf, ds ++ ds2)
        else some (false, w2, errbuf,
          ds ++ ds2 ++ [⟨Chan.stderr, "nio_archive_write: unlock mutex"⟩])
  else some (false, w, errbuf,
    ds ++ [⟨Chan.stderr, "nio_archive_write: allocate output buffer"⟩])

/-- `nio_archive_write` (compress.c:250): lock, finalize the current frame
first when `frame_uc >= min_frame_size`, then feed the whole input to the
compressor and account it in `frame_uc`. -/
def nio_archive_write (w : Writer) (len : Nat) (env : WriteEnv) (errbuf : String) :
    Option (Bool × Writer × String × List Diag) :=
  if env.lockOk then
    if w.frame_uc ≥ w.min_frame_size then
      match end_frame w env.ef with
      | none => none
      | some (false, w1, ds) =>
          some (false, w1, errbuf,
            ds ++ [⟨Chan.stderr, "nio_archive_write: end frame failed"⟩])
      | some (true, w1, ds) => writeAfterCheck w1 len env errbuf ds
    else writeAfterCheck w len env errbuf []
  else some (false, w, errbuf, [⟨Chan.stderr, "nio_archive_write: lock mutex"⟩])

/-- Outcome of one `ZSTD_seekable_writeSeekTable` invocation: error, or
`produced` bytes deposited (then written by `fwrite`, possibly short) with
`rem` bytes of the serialization still pending. -/
inductive SeekTableStep
  | err
  | ok (produced rem : Nat) (writeOk : Bool)
deriving DecidableEq, Repr

/-- Seek-table emission loop of `nio_archive_writer_close` (`do { ... }
while (rem > 0)`); only the sink byte count evolves. -/
def seekTableLoop : Nat → List SeekTableStep → Option (Bool × Nat × List Diag)
  | _, [] => none
  | s, SeekTableStep.err :: _ =>
      some (false, s, [⟨Chan.stderr, "nio_archive_writer_close: write seek table"⟩])
  | s, SeekTableStep.ok produced rem writeOk :: rest =>
      if writeOk then
        if rem > 0 then seekTableLoop (s + produced) rest
        else some (true, s + produced, [])
      else some (false, s, [⟨Chan.stderr, "nio_archive_writer_close: write to file"⟩])

/-- Environment for one `nio_archive_writer_close` call: the `end_frame`
environment, the seek-table buffer `malloc`, the seek-table loop outcomes,
and the outcomes of `fclose`, `ZSTD_seekable_freeFrameLog`,
`pthread_mutex_destroy` and `ZSTD_freeCCtx`. -/
structure CloseEnv where
  ef : EndFrameEnv
  allocOk : Bool
  stSteps : List SeekTableStep
  fcloseOk : Bool
  freeFlOk : Bool
  destroyLockOk : Bool
  freeCctxOk : Bool
deriving DecidableEq, Repr

/-- Body of `nio_archive_writer_close` after the pending frame (if any) has
been finalized (compress.c lines 185–247): serialize the frame log as the
seek table, then close the sink and destroy the frame log, the lock and the
compression context, each step aborting the call on failure. -/
def closeAfterFrame (w1 : Writer) (env : CloseEnv) (errbuf : String)
    (ds : List Diag) : Option (Bool × Writer × String × List Diag) :=
  if env.allocOk then
    match seekTableLoop w1.sinkBytes env.stSteps with
    | none => none
    | some (false, s, ds2) =>
        some (false, { w1 with sinkBytes := s }, errbuf, ds ++ ds2)
    | some (true, s, ds2) =>
        let w2 : Writer := { w1 with sinkBytes := s }
        if env.fcloseOk then
          if env.freeFlOk then
            if env.destroyLockOk then
              if env.freeCctxOk then some (true, w2, errbuf, ds ++ ds2)
              else some (false, w2, errbuf,
                ds ++ ds2 ++ [⟨Chan.stderr, "nio_archive_writer_close: free context"⟩])
            else some (false, w2, errbuf,
              ds ++ ds2 ++ [⟨Chan.stderr, "nio_archive_writer_close: destroy mutex"⟩])
          else some (false, w2, errbuf,
            ds ++ ds2 ++ [⟨Chan.stderr, "nio_archive_writer_close: free frame log"⟩])
        else some (false, w2, errbuf,
          ds ++ ds2 ++ [⟨Chan.stderr, "nio_archive_writer_close: close file"⟩])
  else some (false, w1, errbuf,
    ds ++ [⟨Chan.stderr, "nio_archive_writer_close: allocate output buffer"⟩])

/-- `nio_archive_writer_close` (compress.c:173): finalize the pending frame
if `frame_uc > 0`, serialize the frame log as the seek table, then close the
sink and destroy the frame log, the lock and the compression context.  The
returned writer's `fl` is the frame log exactly as it was serialized. -/
def nio_archive_writer_close (w : Writer) (env : CloseEnv) (errbuf : String) :
    Option (Bool × Writer × String × List Diag) :=
  match (if w.frame_uc > 0 then end_frame w env.ef else some (true, w, [])) with
  | none => none
  | some (false, w1, ds) =>
      some (false, w1, errbuf,
        ds ++ [⟨Chan.stderr, "nio_archive_writer_close: end frame failed"⟩])
  | some (true, w1, ds) => closeAfterFrame w1 env errbuf ds

/-- Resources acquired by `nio_archive_writer_open`, in acquisition order:
the writer allocation, the compression context, the mutex, the frame log,
and the opened output file. -/
inductive Res
  | writerMem
  | cctx
  | lock
  | frameLog
  | sinkFile
deriving DecidableEq, Repr

/-- Environment for one `nio_archive_writer_open` call: outcomes of the
writer `malloc`, `ZSTD_createCCtx`, the three `ZSTD_CCtx_setParameter`
calls, `pthread_mutex_init`, `ZSTD_seekable_createFrameLog` and `fopen`. -/
structure OpenEnv where
  mallocOk : Bool
  cctxOk : Bool
  setLevelOk : Bool
  setStrategyOk : Bool
  setWorkersOk : Bool
  lockInitOk : Bool
  flOk : Bool
  fopenOk : Bool
deriving DecidableEq, Repr

/-- Result of `nio_archive_writer_open`: the session handle (or `none` on
failure), the resources acquired before returning, the resources released
on the way out (in release order), the diagnostics emitted, and the error
buffer as returned. -/
structure OpenResult where
  writer : Option Writer
  acquired : List Res
  released : List Res
  diags : List Diag
  errbuf : String
deriving DecidableEq, Repr

/-- Cleanup cascade of `nio_archive_writer_open`, label `fail`. -/
def cleanup_fail : List Res := []

/-- Cleanup cascade, label `fail_w_writer`: `free(writer)` then fall
through. -/
def cleanup_fail_w_writer : List Res := Res.writerMem :: cleanup_fail

/-- Cleanup cascade, label `fail_w_cctx`: `ZSTD_freeCCtx(cctx)` then fall
through. -/
def cleanup_fail_w_cctx : List Res := Res.cctx :: cleanup_fail_w_writer

/-- Cleanup cascade, label `fail_w_lock`: `pthread_mutex_destroy` then fall
through. -/
def cleanup_fail_w_lock : List Res := Res.lock :: cleanup_fail_w_cctx

/-- Cleanup cascade, label `fail_w_framelog`: `ZSTD_seekable_freeFrameLog`
then fall through. -/
def cleanup_fail_w_framelog : List Res := Res.frameLog :: cleanup_fail_w_lock

/-- Writer state returned by a successful `nio_archive_writer_open`: the
struct is `memset` to zero, then `min_frame_size` is stored. -/
def freshWriter (min_frame_size : Nat) : Writer :=
  ⟨0, 0, min_frame_size, [], 0, 0⟩

/-- `nio_archive_writer_open` (compress.c:30): acquire the writer
allocation, the compression context (configuring level, strategy and worker
count on it), the mutex, the frame log and the output file, in that order;
on failure jump into the cleanup cascade for the resources acquired so
far. -/
def nio_archive_writer_open (min_frame_size : Nat) (env : OpenEnv) (errbuf : String) :
    OpenResult :=
  if env.mallocOk then
    if env.cctxOk then
      if env.setLevelOk then
        if env.setStrategyOk then
          if env.setWorkersOk then
            if env.lockInitOk then
              if env.flOk then
                if env.fopenOk then
                  ⟨some (freshWriter min_frame_size),
                   [Res.writerMem, Res.cctx, Res.lock, Res.frameLog, Res.sinkFile],
                   [], [], errbuf⟩
                else
                  ⟨none, [Res.writerMem, Res.cctx, Res.lock, Res.frameLog],
                   cleanup_fail_w_framelog,
                   [⟨Chan.stderr, "nio_archive_writer_open: open file"⟩], errbuf⟩
              else
                ⟨none, [Res.writerMem, Res.cctx, Res.lock],
                 cleanup_fail_w_lock,
                 [⟨Chan.stderr, "nio_archive_writer_open: create frame log failed"⟩], errbuf⟩
            else
              ⟨none, [Res.writerMem, Res.cctx],
               cleanup_fail_w_cctx,
               [⟨Chan.stderr, "nio_archive_writer_open: initialize mutex"⟩], errbuf⟩
          else
            ⟨none, [Res.writerMem, Res.cctx],
             cleanup_fail_w_cctx,
             [⟨Chan.stderr, "nio_archive_writer_open: set nb of workers"⟩], errbuf⟩
        else
          ⟨none, [Res.writerMem, Res.cctx],
           cleanup_fail_w_cctx,
           [⟨Chan.stderr, "nio_archive_writer_open: set strategy"⟩], errbuf⟩
      else
        ⟨none, [Res.writerMem, Res.cctx],
         cleanup_fail_w_cctx,
         [⟨Chan.stderr, "nio_archive_writer_open: set compression level"⟩], errbuf⟩
    else
      ⟨none, [Res.writerMem],
       cleanup_fail_w_writer,
       [⟨Chan.stderr, "nio_archive_writer_open: create context"⟩], errbuf⟩
  else
    ⟨none, [], cleanup_fail,
     [⟨Chan.stderr, "nio_archive_writer_open: allocate writer"⟩], errbuf⟩

/-- Sequential execution of a list of `nio_archive_write` calls, each given
its payload length and environment; stops at the first failure. -/
def runWrites : Writer → List (Nat × WriteEnv) → String →
    Option (Bool × Writer × String × List Diag)
  | w, [], eb => some (true, w, eb, [])
  | w, (len, env) :: rest, eb =>
      match nio_archive_write w len env eb with
      | none => none
      | some (false, w1, eb1, ds) => some (false, w1, eb1, ds)
      | some (true, w1, eb1, ds) =>
          match runWrites w1 rest eb1 with
          | none => none
          | some (b, w2, eb2, ds2) => some (b, w2, eb2, ds ++ ds2)

/-- Total uncompressed bytes accounted by the session: bytes already logged
in finalized frames plus the pending frame counter. -/
def sumUc (w : Writer) : Nat :=
  (w.fl.map FrameDesc.uncompressed_size).sum + w.frame_uc

/-- An `end_frame` environment in which every external call succeeds: the
single drain iteration produces 5 bytes and reports nothing left. -/
def cleanEFEnv : EndFrameEnv := ⟨true, [CompressStep.ok 0 5 0 true], true⟩

/-- A `nio_archive_write` environment in which every external call
succeeds: the single feed iteration consumes the whole input and produces
2 bytes. -/
def cleanWriteEnv (len : Nat) : WriteEnv :=
  ⟨true, cleanEFEnv, true, [CompressStep.ok len 2 0 true], true⟩

/-- A `nio_archive_writer_close` environment in which every external call
succeeds: the seek table is emitted in one 6-byte chunk. -/
def cleanCloseEnv : CloseEnv :=
  ⟨cleanEFEnv, true, [SeekTableStep.ok 6 0 true], true, true, true, true⟩

/-- All eight acquisition steps of `nio_archive_writer_open` succeed. -/
def openAllOk (env : OpenEnv) : Bool :=
  env.mallocOk && env.cctxOk && env.setLevelOk && env.setStrategyOk &&
    env.setWorkersOk && env.lockInitOk && env.flOk && env.fopenOk

/-- The drain loop of `end_frame` never touches `frame_uc`, the frame log
or `min_frame_size`; it only grows `frame_cm` and the sink, and on normal
exit the compressor reports nothing buffered. -/
theorem endFrameLoop_spec : ∀ (steps : List CompressStep) (w : Writer) (b : Bool)
    (w' : Writer) (ds : List Diag), endFrameLoop w steps = some (b, w', ds) →
    w'.frame_uc = w.frame_uc ∧ w'.fl = w.fl ∧
    w'.min_frame_size = w.min_frame_size ∧
    w.frame_cm ≤ w'.frame_cm ∧ w.sinkBytes ≤ w'.sinkBytes ∧
    (b = true → w'.cPending = 0)
  | [], w, b, w', ds => by simp [endFrameLoop]
  | CompressStep.err :: rest, w, b, w', ds => by
      intro h
      simp only [endFrameLoop, Option.some.injEq, Prod.mk.injEq] at h
      obtain ⟨hb, hw, -⟩ := h
      subst hw
      refine ⟨rfl, rfl, rfl, le_refl _, le_refl _, ?_⟩
      intro hb'
      exact absurd (hb.trans hb') (by simp)
  | CompressStep.ok c p r wk :: rest, w, b, w', ds => by
      intro h
      simp only [endFrameLoop] at h
      cases wk with
      | true =>
          rw [if_pos rfl] at h
          by_cases hr : r > 0
          · rw [if_pos hr] at h
            obtain ⟨h1, h2, h3, h4, h5, h6⟩ := endFrameLoop_spec rest _ b w' ds h
            exact ⟨h1, h2, h3, le_trans (Nat.le_add_right _ _) h4,
              le_trans (Nat.le_add_right _ _) h5, h6⟩
          · rw [if_neg hr] at h
            simp only [Option.some.injEq, Prod.mk.injEq] at h
            obtain ⟨hb, hw, -⟩ := h
            subst hw
            have hr0 : r = 0 := Nat.eq_zero_of_not_pos hr
            refine ⟨rfl, rfl, rfl, Nat.le_add_right _ _, Nat.le_add_right _ _, ?_⟩
            intro _
            exact hr0
      | false =>
          rw [if_neg (by simp)] at h
          simp only [Option.some.injEq, Prod.mk.injEq] at h
          obtain ⟨hb, hw, -⟩ := h
          subst hw
          refine ⟨rfl, rfl, rfl, Nat.le_add_right _ _, le_refl _, ?_⟩
          intro hb'
          exact absurd (hb.trans hb') (by simp)

/-- Successful `end_frame`: exactly one descriptor is appended, carrying
the values of the two counters at log time (`frame_cm` having grown by the
drained bytes, `frame_uc` untouched), and both counters are reset. -/
theorem end_frame_true_spec (w : Writer) (env : EndFrameEnv) (w' : Writer)
    (ds : List Diag) (h : end_frame w env = some (true, w', ds)) :
    ∃ c, w.frame_cm ≤ c ∧
      w'.fl = w.fl ++ [⟨c, w.frame_uc, CHECKSUM_SENTINEL⟩] ∧
      w'.frame_uc = 0 ∧ w'.frame_cm = 0 ∧
      w'.min_frame_size = w.min_frame_size ∧
      w.sinkBytes ≤ w'.sinkBytes ∧ w'.cPending = 0 := by
  unfold end_frame at h
  split at h
  · split at h
    case h_1 heq => exact absurd h (by simp)
    case h_2 b1 w1 ds1 heq => exact absurd h (by simp)
    case h_3 b1 w1 ds1 heq =>
      obtain ⟨h1, h2, h3, h4, h5, h6⟩ := endFrameLoop_spec _ _ _ _ _ heq
      split at h
      · simp only [Option.some.injEq, Prod.mk.injEq, true_and] at h
        obtain ⟨hw, -⟩ := h
        subst hw
        refine ⟨w1.frame_cm, h4, ?_, rfl, rfl, h3, h5, h6 rfl⟩
        show w1.fl ++ [⟨w1.frame_cm, w1.frame_uc, CHECKSUM_SENTINEL⟩] = _
        rw [h1, h2]
      · exact absurd h (by simp)
  · exact absurd h (by simp)

/-- Failed `end_frame`: the frame log and `frame_uc` are exactly as before
the call (neither reset nor appended); `frame_cm` and the sink may have
grown but are not reset. -/
theorem end_frame_false_spec (w : Writer) (env : EndFrameEnv) (w' : Writer)
    (ds : List Diag) (h : end_frame w env = some (false, w', ds)) :
    w'.fl = w.fl ∧ w'.frame_uc = w.frame_uc ∧
    w.frame_cm ≤ w'.frame_cm ∧
    w'.min_frame_size = w.min_frame_size ∧
    w.sinkBytes ≤ w'.sinkBytes := by
  unfold end_frame at h
  split at h
  · split at h
    case h_1 heq => exact absurd h (by simp)
    case h_2 b1 w1 ds1 heq =>
      obtain ⟨h1, h2, h3, h4, h5, -⟩ := endFrameLoop_spec _ _ _ _ _ heq
      simp only [Option.some.injEq, Prod.mk.injEq, true_and] at h
      obtain ⟨hw, -⟩ := h
      subst hw
      exact ⟨h2, h1, h4, h3, h5⟩
    case h_3 b1 w1 ds1 heq =>
      obtain ⟨h1, h2, h3, h4, h5, -⟩ := endFrameLoop_spec _ _ _ _ _ heq
      split at h
      · exact absurd h (by simp)
      · simp only [Option.some.injEq, Prod.mk.injEq, true_and] at h
        obtain ⟨hw, -⟩ := h
        subst hw
        exact ⟨h2, h1, h4, h3, h5⟩
  · simp only [Option.some.injEq, Prod.mk.injEq, true_and] at h
    obtain ⟨hw, -⟩ := h
    subst hw
    exact ⟨rfl, rfl, le_refl _, rfl, le_refl _⟩

/-- The feed loop of `nio_archive_write` never touches `frame_uc`, the
frame log or `min_frame_size`; it only grows `frame_cm` and the sink. -/
theorem writeLoop_spec : ∀ (steps : List CompressStep) (w : Writer)
    (pos len : Nat) (b : Bool) (w' : Writer) (ds : List Diag),
    writeLoop w pos len steps = some (b, w', ds) →
    w'.frame_uc = w.frame_uc ∧ w'.fl = w.fl ∧
    w'.min_frame_size = w.min_frame_size ∧
    w.frame_cm ≤ w'.frame_cm ∧ w.sinkBytes ≤ w'.sinkBytes
  | [], w, pos, len, b, w', ds => by simp [writeLoop]
  | CompressStep.err :: rest, w, pos, len, b, w', ds => by
      intro h
      simp only [writeLoop, Option.some.injEq, Prod.mk.injEq] at h
      obtain ⟨-, hw, -⟩ := h
      subst hw
      exact ⟨rfl, rfl, rfl, le_refl _, le_refl _⟩
  | CompressStep.ok c p r wk :: rest, w, pos, len, b, w', ds => by
      intro h
      simp only [writeLoop] at h
      cases wk with
      | true =>
          rw [if_pos rfl] at h
          by_cases hp : min (pos + c) len < len
          · rw [if_pos hp] at h
            obtain ⟨h1, h2, h3, h4, h5⟩ := writeLoop_spec rest _ _ _ b w' ds h
            exact ⟨h1, h2, h3, le_trans (Nat.le_add_right _ _) h4,
              le_trans (Nat.le_add_right _ _) h5⟩
          · rw [if_neg hp] at h
            simp only [Option.some.injEq, Prod.mk.injEq] at h
            obtain ⟨-, hw, -⟩ := h
            subst hw
            exact ⟨rfl, rfl, rfl, Nat.le_add_right _ _, Nat.le_add_right _ _⟩
      | false =>
          rw [if_neg (by simp)] at h
          simp only [Option.some.injEq, Prod.mk.injEq] at h
          obtain ⟨-, hw, -⟩ := h
          subst hw
          exact ⟨rfl, rfl, rfl, Nat.le_add_right _ _, le_refl _⟩

/-- Successful run of the post-threshold body of `nio_archive_write`:
`frame_uc` has grown by exactly `len`, the frame log is untouched, and the
error buffer is returned as passed. -/
theorem writeAfterCheck_true_spec (w : Writer) (len : Nat) (env : WriteEnv)
    (eb : String) (ds : List Diag) (w' : Writer) (eb' : String) (ds' : List Diag)
    (h : writeAfterCheck w len env eb ds = some (true, w', eb', ds')) :
    w'.frame_uc = w.frame_uc + len ∧ w'.fl = w.fl ∧
    w'.min_frame_size = w.min_frame_size ∧ eb' = eb ∧
    w.frame_cm ≤ w'.frame_cm ∧ w.sinkBytes ≤ w'.sinkBytes := by
  unfold writeAfterCheck at h
  split at h
  · split at h
    case h_1 heq => exact absurd h (by simp)
    case h_2 b1 w1 ds1 heq => exact absurd h (by simp)
    case h_3 b1 w1 ds1 heq =>
      obtain ⟨h1, h2, h3, h4, h5⟩ := writeLoop_spec _ _ _ _ _ _ _ heq
      split at h
      · simp only [Option.some.injEq, Prod.mk.injEq, true_and] at h
        obtain ⟨hw, heb, -⟩ := h
        subst hw
        exact ⟨by rw [h1], h2, h3, heb.symm, h4, h5⟩
      · exact absurd h (by simp)
  · exact absurd h (by simp)

/-- Failed run of the post-threshold body of `nio_archive_write`, given
that the mutex unlock succeeds (so the failure is the output-buffer
allocation or inside the feed loop): `frame_uc` and the frame log are
exactly as at the start of the loop, while `frame_cm` and the sink may
have grown; the error buffer is returned as passed. -/
theorem writeAfterCheck_false_spec (w : Writer) (len : Nat) (env : WriteEnv)
    (eb : String) (ds : List Diag) (w' : Writer) (eb' : String) (ds' : List Diag)
    (hu : env.unlockOk = true)
    (h : writeAfterCheck w len env eb ds = some (false, w', eb', ds')) :
    w'.frame_uc = w.frame_uc ∧ w'.fl = w.fl ∧
    w'.min_frame_size = w.min_frame_size ∧ eb' = eb ∧
    w.frame_cm ≤ w'.frame_cm ∧ w.sinkBytes ≤ w'.sinkBytes := by
  unfold writeAfterCheck at h
  split at h
  · split at h
    case h_1 heq => exact absurd h (by simp)
    case h_2 b1 w1 ds1 heq =>
      obtain ⟨h1, h2, h3, h4, h5⟩ := writeLoop_spec _ _ _ _ _ _ _ heq
      simp only [Option.some.injEq, Prod.mk.injEq, true_and] at h
      obtain ⟨hw, heb, -⟩ := h
      subst hw
      exact ⟨h1, h2, h3, heb.symm, h4, h5⟩
    case h_3 b1 w1 ds1 heq =>
      simp only [hu, if_pos] at h
      simp at h
  · simp only [Option.some.injEq, Prod.mk.injEq, true_and] at h
    obtain ⟨hw, heb, -⟩ := h
    subst hw
    exact ⟨rfl, rfl, rfl, heb.symm, le_refl _, le_refl _⟩

/-- Successful `nio_archive_write`: the error buffer and `min_frame_size`
are unchanged, and either the threshold was not met — the input joined the
current frame, no descriptor logged — or it was met and exactly one
descriptor (recording only previously accumulated bytes) was appended
before the input started the next frame. -/
theorem write_true_spec (w : Writer) (len : Nat) (env : WriteEnv) (eb : String)
    (w' : Writer) (eb' : String) (ds : List Diag)
    (h : nio_archive_write w len env eb = some (true, w', eb', ds)) :
    eb' = eb ∧ w'.min_frame_size = w.min_frame_size ∧
    ((w.frame_uc < w.min_frame_size ∧ w'.fl = w.fl ∧
        w'.frame_uc = w.frame_uc + len) ∨
     (w.min_frame_size ≤ w.frame_uc ∧
        (∃ c, w.frame_cm ≤ c ∧
          w'.fl = w.fl ++ [⟨c, w.frame_uc, CHECKSUM_SENTINEL⟩]) ∧
        w'.frame_uc = len)) := by
  unfold nio_archive_write at h
  split at h
  · split at h
    case isTrue hth =>
      split at h
      case h_1 heq => exact absurd h (by simp)
      case h_2 w1 ds1 heq => exact absurd h (by simp)
      case h_3 w1 ds1 heq =>
        obtain ⟨c, hc, hfl, huc, -, hmin, -, -⟩ := end_frame_true_spec _ _ _ _ heq
        obtain ⟨g1, g2, g3, g4, -, -⟩ := writeAfterCheck_true_spec _ _ _ _ _ _ _ _ h
        refine ⟨g4, g3.trans hmin, Or.inr ⟨hth, ⟨c, hc, g2.trans hfl⟩, ?_⟩⟩
        rw [g1, huc, Nat.zero_add]
    case isFalse hth =>
      obtain ⟨g1, g2, g3, g4, -, -⟩ := writeAfterCheck_true_spec _ _ _ _ _ _ _ _ h
      exact ⟨g4, g3, Or.inl ⟨Nat.lt_of_not_le hth, g2, g1⟩⟩
  · exact absurd h (by simp)

/-- The seek-table emission loop only grows the sink byte count. -/
theorem seekTableLoop_spec : ∀ (steps : List SeekTableStep) (s : Nat) (b : Bool)
    (s' : Nat) (ds : List Diag), seekTableLoop s steps = some (b, s', ds) → s ≤ s'
  | [], s, b, s', ds => by simp [seekTableLoop]
  | SeekTableStep.err :: rest, s, b, s', ds => by
      intro h
      simp only [seekTableLoop, Option.some.injEq, Prod.mk.injEq] at h
      obtain ⟨-, hs, -⟩ := h
      exact le_of_eq hs
  | SeekTableStep.ok p r wk :: rest, s, b, s', ds => by
      intro h
      simp only [seekTableLoop] at h
      cases wk with
      | true =>
          rw [if_pos rfl] at h
          by_cases hr : r > 0
          · rw [if_pos hr] at h
            exact le_trans (Nat.le_add_right _ _) (seekTableLoop_spec rest _ b s' ds h)
          · rw [if_neg hr] at h
            simp only [Option.some.injEq, Prod.mk.injEq] at h
            obtain ⟨-, hs, -⟩ := h
            exact hs ▸ Nat.le_add_right _ _
      | false =>
          rw [if_neg (by simp)] at h
          simp only [Option.some.injEq, Prod.mk.injEq] at h
          obtain ⟨-, hs, -⟩ := h
          exact le_of_eq hs

/-- Successful run of the part of `close` after frame finalization: the
frame log and both counters are untouched (only the sink grows by the seek
table bytes) and the error buffer is returned as passed. -/
theorem closeAfterFrame_true_spec (w1 : Writer) (env : CloseEnv) (eb : String)
    (ds : List Diag) (w' : Writer) (eb' : String) (ds' : List Diag)
    (h : closeAfterFrame w1 env eb ds = some (true, w', eb', ds')) :
    w'.fl = w1.fl ∧ w'.frame_uc = w1.frame_uc ∧ w'.frame_cm = w1.frame_cm ∧
    w'.min_frame_size = w1.min_frame_size ∧ eb' = eb ∧
    w1.sinkBytes ≤ w'.sinkBytes := by
  unfold closeAfterFrame at h
  split at h
  · split at h
    case h_1 heq => exact absurd h (by simp)
    case h_2 s ds2 heq => exact absurd h (by simp)
    case h_3 s ds2 heq =>
      have hs := seekTableLoop_spec _ _ _ _ _ heq
      by_cases h1 : env.fcloseOk = true
      · rw [if_pos h1] at h
        by_cases h2 : env.freeFlOk = true
        · rw [if_pos h2] at h
          by_cases h3 : env.destroyLockOk = true
          · rw [if_pos h3] at h
            by_cases h4 : env.freeCctxOk = true
            · rw [if_pos h4] at h
              simp only [Option.some.injEq, Prod.mk.injEq, true_and] at h
              obtain ⟨hw, heb, -⟩ := h
              subst hw
              exact ⟨rfl, rfl, rfl, rfl, heb.symm, hs⟩
            · rw [if_neg h4] at h
              exact absurd h (by simp)
          · rw [if_neg h3] at h
            exact absurd h (by simp)
        · rw [if_neg h2] at h
          exact absurd h (by simp)
      · rw [if_neg h1] at h
        exact absurd h (by simp)
  · exact absurd h (by simp)

/-- Successful `nio_archive_writer_close`: the serialized seek table (the
final frame log) accounts exactly the bytes of all finalized frames plus
the pending counter; a pending frame is finalized into one final
descriptor, and with no pending bytes the log is serialized as is. -/
theorem close_true_spec (w : Writer) (env : CloseEnv) (eb : String)
    (w' : Writer) (eb' : String) (ds : List Diag)
    (h : nio_archive_writer_close w env eb = some (true, w', eb', ds)) :
    (w'.fl.map FrameDesc.uncompressed_size).sum = sumUc w ∧ eb' = eb ∧
    (0 < w.frame_uc → ∃ c, w.frame_cm ≤ c ∧
      w'.fl = w.fl ++ [⟨c, w.frame_uc, CHECKSUM_SENTINEL⟩]) ∧
    (w.frame_uc = 0 → w'.fl = w.fl) := by
  unfold nio_archive_writer_close at h
  by_cases h0 : w.frame_uc > 0
  · rw [if_pos h0] at h
    cases heq : end_frame w env.ef with
    | none => rw [heq] at h; simp at h
    | some res =>
        obtain ⟨b1, w1, ds1⟩ := res
        rw [heq] at h
        cases b1 with
        | false => simp at h
        | true =>
            obtain ⟨c, hc, hfl, huc, -, -, -, -⟩ := end_frame_true_spec _ _ _ _ heq
            obtain ⟨g1, g2, -, -, g5, -⟩ := closeAfterFrame_true_spec _ _ _ _ _ _ _ h
            refine ⟨?_, g5, fun _ => ⟨c, hc, g1.trans hfl⟩,
              fun hz => absurd hz (Nat.pos_iff_ne_zero.mp h0)⟩
            rw [g1, hfl]
            simp [sumUc]
  · rw [if_neg h0] at h
    obtain ⟨g1, g2, -, -, g5, -⟩ := closeAfterFrame_true_spec _ _ _ _ _ _ _ h
    have hz : w.frame_uc = 0 := Nat.eq_zero_of_not_pos h0
    refine ⟨?_, g5, fun hpos => absurd hpos h0, fun _ => g1⟩
    rw [g1]
    simp [sumUc, hz]

/-- Accounting across a successful `end_frame`: the pending counter moves
into the logged descriptor, so the total accounted bytes are unchanged. -/
theorem end_frame_sumUc (w : Writer) (env : EndFrameEnv) (w' : Writer)
    (ds : List Diag) (h : end_frame w env = some (true, w', ds)) :
    sumUc w' = sumUc w := by
  obtain ⟨c, -, hfl, huc, -, -, -, -⟩ := end_frame_true_spec _ _ _ _ h
  simp [sumUc, hfl, huc]

/-- Accounting across a successful `nio_archive_write`: the total accounted
bytes grow by exactly the payload length. -/
theorem write_sumUc (w : Writer) (len : Nat) (env : WriteEnv) (eb : String)
    (w' : Writer) (eb' : String) (ds : List Diag)
    (h : nio_archive_write w len env eb = some (true, w', eb', ds)) :
    sumUc w' = sumUc w + len := by
  obtain ⟨-, -, hcase⟩ := write_true_spec _ _ _ _ _ _ _ h
  rcases hcase with ⟨-, hfl, huc⟩ | ⟨-, ⟨c, -, hfl⟩, huc⟩ <;>
    · simp [sumUc, hfl, huc]
      try omega

/-- Accounting across a successful sequence of `nio_archive_write` calls:
the total accounted bytes grow by the sum of the payload lengths;
`min_frame_size` and the error buffer never change. -/
theorem runWrites_true_spec : ∀ (calls : List (Nat × WriteEnv)) (w : Writer)
    (eb : String) (w' : Writer) (eb' : String) (ds : List Diag),
    runWrites w calls eb = some (true, w', eb', ds) →
    sumUc w' = sumUc w + (calls.map Prod.fst).sum ∧
    w'.min_frame_size = w.min_frame_size ∧ eb' = eb
  | [], w, eb, w', eb', ds => by
      intro h
      simp only [runWrites, Option.some.injEq, Prod.mk.injEq, true_and] at h
      obtain ⟨hw, heb, -⟩ := h
      subst hw
      exact ⟨by simp, rfl, heb.symm⟩
  | (len, env) :: rest, w, eb, w', eb', ds => by
      intro h
      unfold runWrites at h
      cases hw : nio_archive_write w len env eb with
      | none => rw [hw] at h; simp at h
      | some res =>
          obtain ⟨b1, w1, eb1, ds1⟩ := res
          rw [hw] at h
          cases b1 with
          | false => simp at h
          | true =>
              simp only [] at h
              cases hr : runWrites w1 rest eb1 with
              | none => rw [hr] at h; simp at h
              | some res2 =>
                  obtain ⟨b2, w2, eb2, ds2⟩ := res2
                  rw [hr] at h
                  simp only [] at h
                  simp only [Option.some.injEq, Prod.mk.injEq] at h
                  obtain ⟨hb2, hw2, heb2, -⟩ := h
                  subst hw2
                  subst hb2
                  obtain ⟨k1, k2, k3⟩ := runWrites_true_spec rest w1 eb1 w2 eb2 ds2 hr
                  obtain ⟨m1, m2, -⟩ := write_true_spec _ _ _ _ _ _ _ hw
                  have hsum := write_sumUc _ _ _ _ _ _ _ hw
                  refine ⟨?_, k2.trans m2, heb2.symm.trans (k3.trans m1)⟩
                  rw [k1, hsum]
                  simp
                  omega

/-- Failure of `nio_archive_write` that occurs after the threshold step
(the lock was taken, the pre-check finalize — if triggered — succeeded, and
the unlock succeeds, so the failure is the buffer allocation or inside the
feed loop): `frame_uc` holds exactly its value from the start of the feed
loop — zero if a finalize ran, the original count otherwise — no descriptor
of the new input exists, and the sink may have grown. -/
theorem write_fail_in_loop_spec (w : Writer) (len : Nat) (env : WriteEnv)
    (eb : String) (w' : Writer) (eb' : String) (ds : List Diag)
    (hl : env.lockOk = true) (hu : env.unlockOk = true)
    (hef : w.frame_uc ≥ w.min_frame_size →
      ∃ w1 ds1, end_frame w env.ef = some (true, w1, ds1))
    (h : nio_archive_write w len env eb = some (false, w', eb', ds)) :
    w'.frame_uc = (if w.frame_uc ≥ w.min_frame_size then 0 else w.frame_uc) ∧
    (w.frame_uc ≥ w.min_frame_size →
      ∃ c, w'.fl = w.fl ++ [⟨c, w.frame_uc, CHECKSUM_SENTINEL⟩]) ∧
    (¬ w.frame_uc ≥ w.min_frame_size → w'.fl = w.fl) ∧
    eb' = eb ∧ w.sinkBytes ≤ w'.sinkBytes := by
  unfold nio_archive_write at h
  rw [if_pos hl] at h
  by_cases hth : w.frame_uc ≥ w.min_frame_size
  · rw [if_pos hth] at h
    obtain ⟨w1, ds1, heq⟩ := hef hth
    rw [heq] at h
    simp only [] at h
    obtain ⟨f1, f2, f3, f4, f5, f6⟩ := writeAfterCheck_false_spec _ _ _ _ _ _ _ _ hu h
    obtain ⟨c, hc, hfl, huc, -, -, hsink, -⟩ := end_frame_true_spec _ _ _ _ heq
    rw [if_pos hth]
    exact ⟨f1.trans huc, fun _ => ⟨c, f2.trans hfl⟩,
      fun hlt => absurd hth hlt, f4, le_trans hsink f6⟩
  · rw [if_neg hth] at h
    obtain ⟨f1, f2, f3, f4, f5, f6⟩ := writeAfterCheck_false_spec _ _ _ _ _ _ _ _ hu h
    rw [if_neg hth]
    exact ⟨f1, fun hge => absurd hge hth, fun _ => f2, f4, f6⟩

/-- A successful `nio_archive_writer_open` hands back exactly the zeroed
session with the requested `min_frame_size` stored. -/
theorem open_success_writer (m : Nat) (env : OpenEnv) (eb : String) (w0 : Writer)
    (h : (nio_archive_writer_open m env eb).writer = some w0) :
    w0 = freshWriter m := by
  obtain ⟨a, b, c, d, e, f, g, i⟩ := env
  cases a <;> cases b <;> cases c <;> cases d <;> cases e <;> cases f <;>
    cases g <;> cases i <;> simp_all [nio_archive_writer_open, freshWriter]

/-- Concatenation preserves the all-stderr property of diagnostic lists. -/
theorem stderr_append (ds1 ds2 : List Diag)
    (h1 : ∀ d ∈ ds1, d.chan = Chan.stderr)
    (h2 : ∀ d ∈ ds2, d.chan = Chan.stderr) :
    ∀ d ∈ ds1 ++ ds2, d.chan = Chan.stderr := by
  intro d hd
  rcases List.mem_append.mp hd with hmem | hmem
  · exact h1 d hmem
  · exact h2 d hmem

/-- A singleton standard-error diagnostic is all-stderr. -/
theorem stderr_single (s : String) :
    ∀ d ∈ [(⟨Chan.stderr, s⟩ : Diag)], d.chan = Chan.stderr := by
  intro d hd
  simp at hd
  subst hd
  rfl

/-- Every diagnostic emitted by the `end_frame` drain loop goes to the
standard error stream. -/
theorem endFrameLoop_diags : ∀ (steps : List CompressStep) (w : Writer) (b : Bool)
    (w' : Writer) (ds : List Diag), endFrameLoop w steps = some (b, w', ds) →
    ∀ d ∈ ds, d.chan = Chan.stderr
  | [], w, b, w', ds => by simp [endFrameLoop]
  | CompressStep.err :: rest, w, b, w', ds => by
      intro h
      simp only [endFrameLoop, Option.some.injEq, Prod.mk.injEq] at h
      obtain ⟨-, -, hds⟩ := h
      subst hds
      simp
  | CompressStep.ok c p r wk :: rest, w, b, w', ds => by
      intro h
      simp only [endFrameLoop] at h
      cases wk with
      | true =>
          rw [if_pos rfl] at h
          by_cases hr : r > 0
          · rw [if_pos hr] at h
            exact endFrameLoop_diags rest _ b w' ds h
          · rw [if_neg hr] at h
            simp only [Option.some.injEq, Prod.mk.injEq] at h
            obtain ⟨-, -, hds⟩ := h
            subst hds
            simp
      | false =>
          rw [if_neg (by simp)] at h
          simp only [Option.some.injEq, Prod.mk.injEq] at h
          obtain ⟨-, -, hds⟩ := h
          subst hds
          simp

/-- Every diagnostic emitted by `end_frame` goes to the standard error
stream. -/
theorem end_frame_diags (w : Writer) (env : EndFrameEnv) (b : Bool) (w' : Writer)
    (ds : List Diag) (h : end_frame w env = some (b, w', ds)) :
    ∀ d ∈ ds, d.chan = Chan.stderr := by
  unfold end_frame at h
  split at h
  · split at h
    case h_1 heq => simp at h
    case h_2 b1 w1 ds1 heq =>
        simp only [Option.some.injEq, Prod.mk.injEq] at h
        obtain ⟨-, -, hds⟩ := h
        subst hds
        exact endFrameLoop_diags _ _ _ _ _ heq
    case h_3 b1 w1 ds1 heq =>
        have hloop := endFrameLoop_diags _ _ _ _ _ heq
        split at h <;>
          · simp only [Option.some.injEq, Prod.mk.injEq] at h
            obtain ⟨-, -, hds⟩ := h
            subst hds
            intro d hd
            first
            | exact hloop d hd
            | · rcases List.mem_append.mp hd with hmem | hmem
                · exact hloop d hmem
                · simp at hmem
                  subst hmem
                  rfl
  · simp only [Option.some.injEq, Prod.mk.injEq] at h
    obtain ⟨-, -, hds⟩ := h
    subst hds
    simp

/-- Every diagnostic emitted by the feed loop of `nio_archive_write` goes
to the standard error stream. -/
theorem writeLoop_diags : ∀ (steps : List CompressStep) (w : Writer)
    (pos len : Nat) (b : Bool) (w' : Writer) (ds : List Diag),
    writeLoop w pos len steps = some (b, w', ds) →
    ∀ d ∈ ds, d.chan = Chan.stderr
  | [], w, pos, len, b, w', ds => by simp [writeLoop]
  | CompressStep.err :: rest, w, pos, len, b, w', ds => by
      intro h
      simp only [writeLoop, Option.some.injEq, Prod.mk.injEq] at h
      obtain ⟨-, -, hds⟩ := h
      subst hds
      simp
  | CompressStep.ok c p r wk :: rest, w, pos, len, b, w', ds => by
      intro h
      simp only [writeLoop] at h
      cases wk with
      | true =>
          rw [if_pos rfl] at h
          by_cases hp : min (pos + c) len < len
          · rw [if_pos hp] at h
            exact writeLoop_diags rest _ _ _ b w' ds h
          · rw [if_neg hp] at h
            simp only [Option.some.injEq, Prod.mk.injEq] at h
            obtain ⟨-, -, hds⟩ := h
            subst hds
            simp
      | false =>
          rw [if_neg (by simp)] at h
          simp only [Option.some.injEq, Prod.mk.injEq] at h
          obtain ⟨-, -, hds⟩ := h
          subst hds
          simp

/-- The post-threshold body of `nio_archive_write` returns the error buffer
untouched, and only adds standard-error diagnostics to the ones passed
in. -/
theorem writeAfterCheck_frame_effects (w : Writer) (len : Nat) (env : WriteEnv)
    (eb : String) (ds : List Diag) (b : Bool) (w' : Writer) (eb' : String)
    (ds' : List Diag) (hds : ∀ d ∈ ds, d.chan = Chan.stderr)
    (h : writeAfterCheck w len env eb ds = some (b, w', eb', ds')) :
    eb' = eb ∧ ∀ d ∈ ds', d.chan = Chan.stderr := by
  unfold writeAfterCheck at h
  split at h
  · split at h
    case h_1 heq => simp at h
    case h_2 b1 w1 ds1 heq =>
        have hloop := writeLoop_diags _ _ _ _ _ _ _ heq
        simp only [Option.some.injEq, Prod.mk.injEq] at h
        obtain ⟨-, -, heb, hds2⟩ := h
        subst hds2
        refine ⟨heb.symm, fun d hd => ?_⟩
        rcases List.mem_append.mp hd with hmem | hmem
        · exact hds d hmem
        · exact hloop d hmem
    case h_3 b1 w1 ds1 heq =>
        have hloop := writeLoop_diags _ _ _ _ _ _ _ heq
        split at h <;>
          · simp only [Option.some.injEq, Prod.mk.injEq] at h
            obtain ⟨-, -, heb, hds2⟩ := h
            subst hds2
            refine ⟨heb.symm, fun d hd => ?_⟩
            first
            | · rcases List.mem_append.mp hd with hmem | hmem
                · exact hds d hmem
                · exact hloop d hmem
            | · rcases List.mem_append.mp hd with hmem | hmem
                · rcases List.mem_append.mp hmem with hmem2 | hmem2
                  · exact hds d hmem2
                  · exact hloop d hmem2
                · simp at hmem
                  subst hmem
                  rfl
  · simp only [Option.some.injEq, Prod.mk.injEq] at h
    obtain ⟨-, -, heb, hds2⟩ := h
    subst hds2
    refine ⟨heb.symm, fun d hd => ?_⟩
    rcases List.mem_append.mp hd with hmem | hmem
    · exact hds d hmem
    · simp at hmem
      subst hmem
      rfl

/-- `nio_archive_write` returns the error buffer untouched and sends every
diagnostic to the standard error stream, on success and on every failure
path. -/
theorem write_frame_effects (w : Writer) (len : Nat) (env : WriteEnv)
    (eb : String) (b : Bool) (w' : Writer) (eb' : String) (ds : List Diag)
    (h : nio_archive_write w len env eb = some (b, w', eb', ds)) :
    eb' = eb ∧ ∀ d ∈ ds, d.chan = Chan.stderr := by
  unfold nio_archive_write at h
  split at h
  · split at h
    · split at h
      case h_1 heq => simp at h
      case h_2 w1 ds1 heq =>
          have hef := end_frame_diags _ _ _ _ _ heq
          simp only [Option.some.injEq, Prod.mk.injEq] at h
          obtain ⟨-, -, heb, hds⟩ := h
          subst hds
          refine ⟨heb.symm, fun d hd => ?_⟩
          rcases List.mem_append.mp hd with hmem | hmem
          · exact hef d hmem
          · simp at hmem
            subst hmem
            rfl
      case h_3 w1 ds1 heq =>
          exact writeAfterCheck_frame_effects _ _ _ _ _ _ _ _ _
            (end_frame_diags _ _ _ _ _ heq) h
    · exact writeAfterCheck_frame_effects _ _ _ _ _ _ _ _ _ (by simp) h
  · simp only [Option.some.injEq, Prod.mk.injEq] at h
    obtain ⟨-, -, heb, hds⟩ := h
    subst hds
    exact ⟨heb.symm, by simp⟩

/-- Every diagnostic emitted by the seek-table emission loop goes to the
standard error stream. -/
theorem seekTableLoop_diags : ∀ (steps : List SeekTableStep) (s : Nat) (b : Bool)
    (s' : Nat) (ds : List Diag), seekTableLoop s steps = some (b, s', ds) →
    ∀ d ∈ ds, d.chan = Chan.stderr
  | [], s, b, s', ds => by simp [seekTableLoop]
  | SeekTableStep.err :: rest, s, b, s', ds => by
      intro h
      simp only [seekTableLoop, Option.some.injEq, Prod.mk.injEq] at h
      obtain ⟨-, -, hds⟩ := h
      subst hds
      simp
  | SeekTableStep.ok p r wk :: rest, s, b, s', ds => by
      intro h
      simp only [seekTableLoop] at h
      cases wk with
      | true =>
          rw [if_pos rfl] at h
          by_cases hr : r > 0
          · rw [if_pos hr] at h
            exact seekTableLoop_diags rest _ b s' ds h
          · rw [if_neg hr] at h
            simp only [Option.some.injEq, Prod.mk.injEq] at h
            obtain ⟨-, -, hds⟩ := h
            subst hds
            simp
      | false =>
          rw [if_neg (by simp)] at h
          simp only [Option.some.injEq, Prod.mk.injEq] at h
          obtain ⟨-, -, hds⟩ := h
          subst hds
          simp

/-- The post-finalize body of `close` returns the error buffer untouched
and only adds standard-error diagnostics to the ones passed in. -/
theorem closeAfterFrame_frame_effects (w1 : Writer) (env : CloseEnv)
    (eb : String) (ds : List Diag) (b : Bool) (w' : Writer) (eb' : String)
    (ds' : List Diag) (hds : ∀ d ∈ ds, d.chan = Chan.stderr)
    (h : closeAfterFrame w1 env eb ds = some (b, w', eb', ds')) :
    eb' = eb ∧ ∀ d ∈ ds', d.chan = Chan.stderr := by
  unfold closeAfterFrame at h
  split at h
  · split at h
    case h_1 heq => simp at h
    case h_2 s ds2 heq =>
        have hloop := seekTableLoop_diags _ _ _ _ _ heq
        simp only [Option.some.injEq, Prod.mk.injEq] at h
        obtain ⟨-, -, heb, hds2⟩ := h
        subst hds2
        refine ⟨heb.symm, fun d hd => ?_⟩
        rcases List.mem_append.mp hd with hmem | hmem
        · exact hds d hmem
        · exact hloop d hmem
    case h_3 s ds2 heq =>
        have hloop := seekTableLoop_diags _ _ _ _ _ heq
        repeat split at h
        all_goals
          simp only [Option.some.injEq, Prod.mk.injEq] at h
          obtain ⟨-, -, heb, hds2⟩ := h
          subst hds2
          first
          | exact ⟨heb.symm, stderr_append _ _ hds hloop⟩
          | exact ⟨heb.symm, stderr_append _ _ (stderr_append _ _ hds hloop)
              (stderr_single _)⟩
  · simp only [Option.some.injEq, Prod.mk.injEq] at h
    obtain ⟨-, -, heb, hds2⟩ := h
    subst hds2
    refine ⟨heb.symm, fun d hd => ?_⟩
    rcases List.mem_append.mp hd with hmem | hmem
    · exact hds d hmem
    · simp at hmem
      subst hmem
      rfl

/-- `nio_archive_writer_close` returns the error buffer untouched and sends
every diagnostic to the standard error stream, on success and on every
failure path. -/
theorem close_frame_effects (w : Writer) (env : CloseEnv) (eb : String)
    (b : Bool) (w' : Writer) (eb' : String) (ds : List Diag)
    (h : nio_archive_writer_close w env eb = some (b, w', eb', ds)) :
    eb' = eb ∧ ∀ d ∈ ds, d.chan = Chan.stderr := by
  unfold nio_archive_writer_close at h
  by_cases h0 : w.frame_uc > 0
  · rw [if_pos h0] at h
    cases heq : end_frame w env.ef with
    | none => rw [heq] at h; simp at h
    | some res =>
        obtain ⟨b1, w1, ds1⟩ := res
        rw [heq] at h
        have hef := end_frame_diags _ _ _ _ _ heq
        cases b1 with
        | false =>
            simp only [] at h
            simp only [Option.some.injEq, Prod.mk.injEq] at h
            obtain ⟨-, -, heb, hds⟩ := h
            subst hds
            exact ⟨heb.symm, stderr_append _ _ hef (stderr_single _)⟩
        | true =>
            simp only [] at h
            exact closeAfterFrame_frame_effects _ _ _ _ _ _ _ _ hef h
  · rw [if_neg h0] at h
    simp only [] at h
    exact closeAfterFrame_frame_effects _ _ _ _ _ _ _ _ (by simp) h

/-- `nio_archive_writer_open` returns the error buffer untouched and sends
every diagnostic to the standard error stream, on success and on every
failure path. -/
theorem open_frame_effects (m : Nat) (env : OpenEnv) (eb : String) :
    (nio_archive_writer_open m env eb).errbuf = eb ∧
    ∀ d ∈ (nio_archive_writer_open m env eb).diags, d.chan = Chan.stderr := by
  obtain ⟨a, b, c, d, e, f, g, i⟩ := env
  cases a <;> cases b <;> cases c <;> cases d <;> cases e <;> cases f <;>
    cases g <;> cases i <;> exact ⟨rfl, by simp [nio_archive_writer_open]⟩

/-- `end_frame` under the all-success clean environment, computed in closed
form: one 5-byte drain chunk, one descriptor, counters reset. -/
theorem end_frame_clean (w : Writer) :
    end_frame w cleanEFEnv = some (true,
      { frame_uc := 0, frame_cm := 0, min_frame_size := w.min_frame_size,
        fl := w.fl ++ [⟨w.frame_cm + 5, w.frame_uc, CHECKSUM_SENTINEL⟩],
        sinkBytes := w.sinkBytes + 5, cPending := 0 }, []) := rfl

/-- The feed loop under the clean environment, computed in closed form: one
iteration consuming the whole input and producing 2 bytes. -/
theorem writeLoop_clean (w : Writer) (l : Nat) :
    writeLoop w 0 l [CompressStep.ok l 2 0 true] = some (true,
      { w with frame_cm := w.frame_cm + 2, cPending := 0,
               sinkBytes := w.sinkBytes + 2 }, []) := by
  simp [writeLoop]

/-- `nio_archive_write` on a session with `min_frame_size = 0` under the
clean environment: the pending frame (whatever its size, zero included) is
finalized into a descriptor carrying the old `frame_uc`, then the input
starts the next frame. -/
theorem write_clean_min0 (w : Writer) (l : Nat) (eb : String)
    (hm : w.min_frame_size = 0) :
    nio_archive_write w l (cleanWriteEnv l) eb = some (true,
      { frame_uc := 0 + l, frame_cm := 0 + 2,
        min_frame_size := w.min_frame_size,
        fl := w.fl ++ [⟨w.frame_cm + 5, w.frame_uc, CHECKSUM_SENTINEL⟩],
        sinkBytes := w.sinkBytes + 5 + 2, cPending := 0 }, eb, []) := by
  have hth : w.frame_uc ≥ w.min_frame_size := by
    rw [hm]
    exact Nat.zero_le _
  unfold nio_archive_write
  rw [if_pos (show (cleanWriteEnv l).lockOk = true from rfl), if_pos hth]
  rw [show (cleanWriteEnv l).ef = cleanEFEnv from rfl, end_frame_clean w]
  simp only []
  unfold writeAfterCheck
  rw [if_pos (show (cleanWriteEnv l).allocOk = true from rfl)]
  rw [show (cleanWriteEnv l).steps = [CompressStep.ok l 2 0 true] from rfl,
    writeLoop_clean]
  simp only []
  rw [if_pos (show (cleanWriteEnv l).unlockOk = true from rfl)]
  rfl

/-- The post-finalize body of `close` under the clean environment, computed
in closed form: the seek table is emitted as one 6-byte chunk and every
cleanup step succeeds. -/
theorem closeAfterFrame_clean (w1 : Writer) (eb : String) (ds : List Diag) :
    closeAfterFrame w1 cleanCloseEnv eb ds = some (true,
      { w1 with sinkBytes := w1.sinkBytes + 6 }, eb, ds ++ []) := rfl

/-- `nio_archive_writer_close` under the clean environment always succeeds,
appending a final descriptor exactly when bytes are pending. -/
theorem close_clean_true (w : Writer) (eb : String) :
    ∃ w' ds, nio_archive_writer_close w cleanCloseEnv eb = some (true, w', eb, ds) := by
  unfold nio_archive_writer_close
  by_cases h0 : w.frame_uc > 0
  · rw [if_pos h0]
    rw [show cleanCloseEnv.ef = cleanEFEnv from rfl, end_frame_clean w]
    simp only []
    exact ⟨_, _, closeAfterFrame_clean _ _ _⟩
  · rw [if_neg h0]
    simp only []
    exact ⟨_, _, closeAfterFrame_clean _ _ _⟩

/-- Clean-environment run with `min_frame_size = 0`: every write call
(the first included) finalizes the pending frame on entry, so the log gains
the previous pending count per call and `frame_uc` ends at the last payload
length. -/
theorem runWrites_min0_clean : ∀ (lens : List Nat) (w : Writer) (eb : String),
    w.min_frame_size = 0 →
    ∃ w' ds, runWrites w (lens.map fun l => (l, cleanWriteEnv l)) eb
        = some (true, w', eb, ds) ∧
      w'.fl.map FrameDesc.uncompressed_size
        = w.fl.map FrameDesc.uncompressed_size
            ++ (if lens = [] then [] else w.frame_uc :: lens.dropLast) ∧
      w'.frame_uc = lens.getLastD w.frame_uc ∧
      w'.min_frame_size = 0
  | [], w, eb, hm => by
      refine ⟨w, [], rfl, by simp, rfl, hm⟩
  | l :: rest, w, eb, hm => by
      have hstep := write_clean_min0 w l eb hm
      set W1 : Writer :=
        { frame_uc := 0 + l, frame_cm := 0 + 2,
          min_frame_size := w.min_frame_size,
          fl := w.fl ++ [⟨w.frame_cm + 5, w.frame_uc, CHECKSUM_SENTINEL⟩],
          sinkBytes := w.sinkBytes + 5 + 2, cPending := 0 } with hW1
      obtain ⟨w', ds, hrun, hmap, huc, hmin⟩ :=
        runWrites_min0_clean rest W1 eb (by rw [hW1]; exact hm)
      refine ⟨w', ds, ?_, ?_, ?_, hmin⟩
      · show runWrites w ((l :: rest).map fun l => (l, cleanWriteEnv l)) eb
          = some (true, w', eb, ds)
        rw [List.map_cons]
        unfold runWrites
        rw [hstep]
        simp only []
        rw [hrun]
        rfl
      · rw [hmap, hW1]
        simp only [List.map_append, List.map_cons, List.map_nil]
        cases rest with
        | nil => simp
        | cons r rs =>
            simp only [List.dropLast_cons₂, List.append_assoc]
            simp [Nat.zero_add]
      · rw [huc, hW1]
        cases rest with
        | nil => simp
        | cons r rs => rfl

/-- The last element (with default) of a nonempty list is a member of it. -/
theorem getLastD_mem : ∀ (x : Nat) (xs : List Nat) (d : Nat),
    (x :: xs).getLastD d ∈ x :: xs
  | x, [], d => by simp [List.getLastD]
  | x, y :: ys, d => List.mem_cons_of_mem x (getLastD_mem y ys x)

/-- Re-attaching the last element (with default) to the front part of a
nonempty list recovers the list. -/
theorem dropLast_append_getLastD : ∀ (x : Nat) (xs : List Nat) (d : Nat),
    (x :: xs).dropLast ++ [(x :: xs).getLastD d] = x :: xs
  | x, [], d => rfl
  | x, y :: ys, d => congrArg (List.cons x) (dropLast_append_getLastD y ys x)

/-- C1: For every sequence of successful write calls whose payload lengths
sum to N bytes, followed by a successful close, the sum of
`uncompressed_size` over all descriptors in the emitted seek table (the
frame log that `close` serialized) equals N. -/
theorem C1_total_uncompressed_accounting (m : Nat) (oenv : OpenEnv)
    (eb : String) (w0 : Writer) (calls : List (Nat × WriteEnv))
    (cenv : CloseEnv) (w1 : Writer) (eb1 : String) (ds1 : List Diag)
    (w2 : Writer) (eb2 : String) (ds2 : List Diag)
    (hopen : (nio_archive_writer_open m oenv eb).writer = some w0)
    (hrun : runWrites w0 calls eb = some (true, w1, eb1, ds1))
    (hclose : nio_archive_writer_close w1 cenv eb1 = some (true, w2, eb2, ds2)) :
    (w2.fl.map FrameDesc.uncompressed_size).sum = (calls.map Prod.fst).sum := by
  have hw0 := open_success_writer _ _ _ _ hopen
  obtain ⟨k1, -, -⟩ := runWrites_true_spec _ _ _ _ _ _ hrun
  obtain ⟨c1, -, -, -⟩ := close_true_spec _ _ _ _ _ _ hclose
  rw [c1, k1, hw0]
  simp [sumUc, freshWriter]

/-- C1 witness: a 3-byte write through open, write, close accounts 3 bytes
in the seek table. -/
theorem C1_total_uncompressed_accounting_witness :
    (([⟨7, 3, 0⟩] : List FrameDesc).map FrameDesc.uncompressed_size).sum
      = ([((3 : Nat), cleanWriteEnv 3)].map Prod.fst).sum :=
  C1_total_uncompressed_accounting 7
    ⟨true, true, true, true, true, true, true, true⟩ "" (freshWriter 7)
    [(3, cleanWriteEnv 3)] cleanCloseEnv
    ⟨3, 2, 7, [], 2, 0⟩ "" [] ⟨0, 0, 7, [⟨7, 3, 0⟩], 13, 0⟩ "" []
    rfl rfl rfl

/-- C2: the concrete run `open(path, 0, 1024)`, `write` of 500, 600 and 10
bytes, then `close`: the first two writes finalize no frame, the third
first finalizes a frame with uncompressed_size 1100, close finalizes a
frame with uncompressed_size 10, and the seek table holds exactly 2
entries whose uncompressed sizes sum to 1110. -/
theorem C2_concrete_scenario :
    nio_archive_write (freshWriter 1024) 500 (cleanWriteEnv 500) "" =
      some (true, ⟨500, 2, 1024, [], 2, 0⟩, "", []) ∧
    nio_archive_write ⟨500, 2, 1024, [], 2, 0⟩ 600 (cleanWriteEnv 600) "" =
      some (true, ⟨1100, 4, 1024, [], 4, 0⟩, "", []) ∧
    nio_archive_write ⟨1100, 4, 1024, [], 4, 0⟩ 10 (cleanWriteEnv 10) "" =
      some (true, ⟨10, 2, 1024, [⟨9, 1100, 0⟩], 11, 0⟩, "", []) ∧
    nio_archive_writer_close ⟨10, 2, 1024, [⟨9, 1100, 0⟩], 11, 0⟩
        cleanCloseEnv "" =
      some (true, ⟨0, 0, 1024, [⟨9, 1100, 0⟩, ⟨7, 10, 0⟩], 22, 0⟩, "", []) ∧
    ([⟨9, 1100, 0⟩, ⟨7, 10, 0⟩] : List FrameDesc).length = 2 ∧
    (([⟨9, 1100, 0⟩, ⟨7, 10, 0⟩] : List FrameDesc).map
      FrameDesc.uncompressed_size).sum = 1110 :=
  ⟨rfl, rfl, rfl, rfl, rfl, rfl⟩

/-- C3 counterexample: with `min_frame_size = 0`, a run of one non-empty
5-byte write followed by close yields a seek table with 2 descriptors, not
1 — the first write also finalizes the (empty) initial frame, logging a
descriptor with uncompressed_size 0. -/
theorem C3_min0_counterexample :
    runWrites (freshWriter 0) [(5, cleanWriteEnv 5)] "" =
      some (true, ⟨5, 2, 0, [⟨5, 0, 0⟩], 7, 0⟩, "", []) ∧
    nio_archive_writer_close ⟨5, 2, 0, [⟨5, 0, 0⟩], 7, 0⟩ cleanCloseEnv "" =
      some (true, ⟨0, 0, 0, [⟨5, 0, 0⟩, ⟨7, 5, 0⟩], 18, 0⟩, "", []) ∧
    ([⟨5, 0, 0⟩, ⟨7, 5, 0⟩] : List FrameDesc).length ≠ 1 :=
  ⟨rfl, rfl, by decide⟩

/-- C3 (amended): with `min_frame_size = 0` every write call — the first
one included — finalizes the pending frame before accepting its input, so
a run of n non-empty writes followed by close produces n + 1 descriptors:
a leading empty-frame descriptor with uncompressed_size 0 from the first
write, then one descriptor per write call. -/
theorem C3_min0_amended (lens : List Nat) (hne : lens ≠ [])
    (hpos : ∀ l ∈ lens, 0 < l) :
    ∃ w' ds w2 ds2,
      runWrites (freshWriter 0) (lens.map fun l => (l, cleanWriteEnv l)) ""
        = some (true, w', "", ds) ∧
      nio_archive_writer_close w' cleanCloseEnv "" = some (true, w2, "", ds2) ∧
      w2.fl.map FrameDesc.uncompressed_size = 0 :: lens ∧
      w2.fl.length = lens.length + 1 := by
  obtain ⟨w', ds, hrun, hmap, huc, hmin⟩ :=
    runWrites_min0_clean lens (freshWriter 0) "" rfl
  obtain ⟨w2, ds2, hclose⟩ := close_clean_true w' ""
  obtain ⟨-, -, cpos, -⟩ := close_true_spec _ _ _ _ _ _ hclose
  cases lens with
  | nil => exact absurd rfl hne
  | cons x xs =>
      have hucpos : 0 < w'.frame_uc := by
        rw [huc]
        exact hpos _ (getLastD_mem x xs _)
      obtain ⟨c, -, hfl⟩ := cpos hucpos
      have hmapfin : w2.fl.map FrameDesc.uncompressed_size = 0 :: x :: xs := by
        rw [hfl]
        simp only [List.map_append, List.map_cons, List.map_nil, hmap, huc]
        show ([] : List Nat) ++ _ ++ _ = _
        rw [List.nil_append]
        rw [if_neg (by simp)]
        show (0 : Nat) :: (x :: xs).dropLast ++ [(x :: xs).getLastD 0] = _
        rw [List.cons_append, dropLast_append_getLastD]
      refine ⟨w', ds, w2, ds2, hrun, hclose, hmapfin, ?_⟩
      have hlen := congrArg List.length hmapfin
      simpa using hlen

/-- C3 amended witness: one 5-byte write with `min_frame_size = 0` gives a
2-descriptor table reading `[0, 5]`. -/
theorem C3_min0_amended_witness :
    ∃ w' ds w2 ds2,
      runWrites (freshWriter 0)
          (([5] : List Nat).map fun l => (l, cleanWriteEnv l)) ""
        = some (true, w', "", ds) ∧
      nio_archive_writer_close w' cleanCloseEnv "" = some (true, w2, "", ds2) ∧
      w2.fl.map FrameDesc.uncompressed_size = 0 :: [5] ∧
      w2.fl.length = ([5] : List Nat).length + 1 :=
  C3_min0_amended [5] (by decide) (by decide)

/-- C4: if any acquisition step of `open` fails, `open` returns an error
and releases exactly the resources acquired before the failing step, in
reverse acquisition order; on success nothing is released and the fully
initialized zeroed session is returned — never a partial one. -/
theorem C4_open_unwind (m : Nat) (env : OpenEnv) (eb : String) :
    (nio_archive_writer_open m env eb).released =
      (if (nio_archive_writer_open m env eb).writer.isSome then []
       else (nio_archive_writer_open m env eb).acquired.reverse) ∧
    (nio_archive_writer_open m env eb).writer =
      (if openAllOk env then some (freshWriter m) else none) := by
  obtain ⟨a, b, c, d, e, f, g, i⟩ := env
  cases a <;> cases b <;> cases c <;> cases d <;> cases e <;> cases f <;>
    cases g <;> cases i <;> exact ⟨rfl, rfl⟩

/-- C5: frame finalization is atomic with respect to the frame log and the
counters: on success it appends exactly one descriptor carrying the two
counters (compressed bytes as accumulated at log time) and resets both
counters to zero; on any failure it returns `false` without appending a
descriptor and without resetting either counter (`frame_uc` is untouched,
`frame_cm` only ever grows). -/
theorem C5_end_frame_atomic (w : Writer) (env : EndFrameEnv) (w' : Writer)
    (ds : List Diag) :
    (end_frame w env = some (true, w', ds) →
      ∃ c, w.frame_cm ≤ c ∧
        w'.fl = w.fl ++ [⟨c, w.frame_uc, CHECKSUM_SENTINEL⟩] ∧
        w'.frame_uc = 0 ∧ w'.frame_cm = 0) ∧
    (end_frame w env = some (false, w', ds) →
      w'.fl = w.fl ∧ w'.frame_uc = w.frame_uc ∧ w.frame_cm ≤ w'.frame_cm) := by
  constructor
  · intro h
    obtain ⟨c, hc, hfl, huc, hcm, -, -, -⟩ := end_frame_true_spec _ _ _ _ h
    exact ⟨c, hc, hfl, huc, hcm⟩
  · intro h
    obtain ⟨h1, h2, h3, -, -⟩ := end_frame_false_spec _ _ _ _ h
    exact ⟨h1, h2, h3⟩

/-- C5 witness: a successful clean finalize on a session holding 4
uncompressed and 3 compressed bytes logs one descriptor and zeroes the
counters. -/
theorem C5_end_frame_atomic_witness :
    ∃ c, 3 ≤ c ∧
      ([⟨8, 4, 0⟩] : List FrameDesc) = [] ++ [⟨c, 4, CHECKSUM_SENTINEL⟩] ∧
      (0 : Nat) = 0 ∧ (0 : Nat) = 0 :=
  (C5_end_frame_atomic ⟨4, 3, 9, [], 0, 0⟩ cleanEFEnv
    ⟨0, 0, 9, [⟨8, 4, 0⟩], 5, 0⟩ []).1 rfl

/-- C6: a successful `write` adds exactly the full input length to
`frame_uc` on top of the feed-loop's starting value: if the threshold was
not met the input joins the current frame and no descriptor is logged; if
it was met, exactly one descriptor is appended first, recording only the
previously accumulated bytes — the input is never split across the frame
boundary. -/
theorem C6_write_all_or_nothing (w : Writer) (len : Nat) (env : WriteEnv)
    (eb : String) (w' : Writer) (eb' : String) (ds : List Diag)
    (h : nio_archive_write w len env eb = some (true, w', eb', ds)) :
    (w.frame_uc < w.min_frame_size →
      w'.frame_uc = w.frame_uc + len ∧ w'.fl = w.fl) ∧
    (w.frame_uc ≥ w.min_frame_size →
      w'.frame_uc = 0 + len ∧
      ∃ c, w'.fl = w.fl ++ [⟨c, w.frame_uc, CHECKSUM_SENTINEL⟩]) := by
  obtain ⟨-, -, hcase⟩ := write_true_spec _ _ _ _ _ _ _ h
  rcases hcase with ⟨hlt, hfl, huc⟩ | ⟨hge, ⟨c, -, hfl⟩, huc⟩
  · refine ⟨fun _ => ⟨huc, hfl⟩, fun hge => absurd hge (by omega)⟩
  · refine ⟨fun hlt => absurd hge (by omega), fun _ => ⟨by omega, c, hfl⟩⟩

/-- C6 witness: a 6-byte write below threshold grows `frame_uc` from 2 to 8
and logs nothing. -/
theorem C6_write_all_or_nothing_witness :
    ((2 : Nat) < 9 → (8 : Nat) = 2 + 6 ∧ ([] : List FrameDesc) = []) ∧
    ((2 : Nat) ≥ 9 → (8 : Nat) = 0 + 6 ∧
      ∃ c, ([] : List FrameDesc) = [] ++ [⟨c, 2, CHECKSUM_SENTINEL⟩]) :=
  C6_write_all_or_nothing ⟨2, 0, 9, [], 0, 0⟩ 6 (cleanWriteEnv 6) ""
    ⟨8, 2, 9, [], 2, 0⟩ "" [] rfl

/-- C7 counterexample: a successful `write` can return with compressed
data still buffered inside the compressor — the feed loop stops as soon as
the input is consumed and ignores the compressor's remaining-data hint, so
42 bytes stay pending across the call boundary. -/
theorem C7_write_buffered_counterexample :
    nio_archive_write (freshWriter 1024) 100
        ⟨true, cleanEFEnv, true, [CompressStep.ok 100 0 42 true], true⟩ "" =
      some (true, ⟨100, 0, 1024, [], 0, 42⟩, "", []) ∧
    (⟨100, 0, 1024, [], 0, 42⟩ : Writer).cPending ≠ 0 :=
  ⟨rfl, by decide⟩

/-- C7 (amended): only frame finalization drains the compressor: a
successful `end_frame` loops until the compressor reports no remaining
data, so nothing stays buffered after it; a plain `write`, by contrast,
stops when its input is consumed and may leave compressed output buffered
(flushed by the next finalization). -/
theorem C7_end_frame_drains (w : Writer) (env : EndFrameEnv) (w' : Writer)
    (ds : List Diag) (h : end_frame w env = some (true, w', ds)) :
    w'.cPending = 0 := by
  obtain ⟨c, -, -, -, -, -, -, hp⟩ := end_frame_true_spec _ _ _ _ h
  exact hp

/-- C7 amended witness: after a clean finalize nothing is buffered. -/
theorem C7_end_frame_drains_witness :
    (⟨0, 0, 11, [⟨6, 2, 0⟩], 5, 0⟩ : Writer).cPending = 0 :=
  C7_end_frame_drains ⟨2, 1, 11, [], 0, 3⟩ cleanEFEnv
    ⟨0, 0, 11, [⟨6, 2, 0⟩], 5, 0⟩ [] rfl

/-- C8: an empty write on an open session succeeds (the feed loop still
runs one compressor call) and contributes nothing to `frame_uc`; but when
`frame_uc ≥ min_frame_size` at entry the pending frame is still finalized
first, so an empty write can append a frame descriptor. -/
theorem C8_empty_write (w : Writer) (env : WriteEnv) (eb : String)
    (c p r : Nat)
    (hl : env.lockOk = true) (ha : env.allocOk = true) (hu : env.unlockOk = true)
    (hsteps : env.steps = [CompressStep.ok c p r true])
    (hef : w.frame_uc ≥ w.min_frame_size →
      ∃ w1 ds1, end_frame w env.ef = some (true, w1, ds1)) :
    ∃ w' ds, nio_archive_write w 0 env eb = some (true, w', eb, ds) ∧
      w'.frame_uc = (if w.frame_uc ≥ w.min_frame_size then 0 else w.frame_uc) ∧
      (w.frame_uc ≥ w.min_frame_size →
        ∃ c2, w'.fl = w.fl ++ [⟨c2, w.frame_uc, CHECKSUM_SENTINEL⟩]) ∧
      (¬ w.frame_uc ≥ w.min_frame_size → w'.fl = w.fl) := by
  have hwl : ∀ (W : Writer), writeLoop W 0 0 [CompressStep.ok c p r true] =
      some (true, { W with frame_cm := W.frame_cm + p, cPending := r,
                           sinkBytes := W.sinkBytes + p }, []) := by
    intro W
    simp [writeLoop]
  by_cases hth : w.frame_uc ≥ w.min_frame_size
  · obtain ⟨w1, ds1, heq⟩ := hef hth
    obtain ⟨c2, -, hfl, huc, -, -, -, -⟩ := end_frame_true_spec _ _ _ _ heq
    refine ⟨{ frame_uc := w1.frame_uc + 0, frame_cm := w1.frame_cm + p,
              min_frame_size := w1.min_frame_size, fl := w1.fl,
              sinkBytes := w1.sinkBytes + p, cPending := r }, ds1 ++ [],
      ?_, ?_, fun _ => ⟨c2, hfl⟩, fun hn => absurd hth hn⟩
    · unfold nio_archive_write
      rw [if_pos hl, if_pos hth, heq]
      simp only []
      unfold writeAfterCheck
      rw [if_pos ha, hsteps, hwl w1]
      simp only []
      rw [if_pos hu]
    · rw [if_pos hth]
      show w1.frame_uc + 0 = 0
      rw [huc]
  · refine ⟨{ frame_uc := w.frame_uc + 0, frame_cm := w.frame_cm + p,
              min_frame_size := w.min_frame_size, fl := w.fl,
              sinkBytes := w.sinkBytes + p, cPending := r }, [] ++ [],
      ?_, ?_, fun hge => absurd hge hth, fun _ => rfl⟩
    · unfold nio_archive_write
      rw [if_pos hl, if_neg hth]
      unfold writeAfterCheck
      rw [if_pos ha, hsteps, hwl w]
      simp only []
      rw [if_pos hu]
    · rw [if_neg hth]
      show w.frame_uc + 0 = w.frame_uc
      rw [Nat.add_zero]

/-- C8 witness: an empty write on a session holding 5 pending bytes with
threshold 3 finalizes the pending frame, appending a descriptor with
uncompressed_size 5 and leaving `frame_uc` at 0. -/
theorem C8_empty_write_witness :
    ∃ w' ds, nio_archive_write ⟨5, 1, 3, [], 0, 0⟩ 0
        ⟨true, cleanEFEnv, true, [CompressStep.ok 7 2 0 true], true⟩ "" =
        some (true, w', "", ds) ∧
      w'.frame_uc =
        (if (⟨5, 1, 3, [], 0, 0⟩ : Writer).frame_uc ≥
            (⟨5, 1, 3, [], 0, 0⟩ : Writer).min_frame_size then 0
         else (⟨5, 1, 3, [], 0, 0⟩ : Writer).frame_uc) ∧
      ((⟨5, 1, 3, [], 0, 0⟩ : Writer).frame_uc ≥
          (⟨5, 1, 3, [], 0, 0⟩ : Writer).min_frame_size →
        ∃ c2, w'.fl = [] ++ [⟨c2, 5, CHECKSUM_SENTINEL⟩]) ∧
      (¬ (⟨5, 1, 3, [], 0, 0⟩ : Writer).frame_uc ≥
          (⟨5, 1, 3, [], 0, 0⟩ : Writer).min_frame_size →
        w'.fl = []) :=
  C8_empty_write ⟨5, 1, 3, [], 0, 0⟩
    ⟨true, cleanEFEnv, true, [CompressStep.ok 7 2 0 true], true⟩ "" 7 2 0
    rfl rfl rfl rfl (fun _ => ⟨_, _, end_frame_clean _⟩)

/-- C9: when a `write` fails after its threshold step (the lock was taken,
any triggered finalize succeeded, the unlock succeeds, and the failure is
the buffer allocation or inside the feed loop), `frame_uc` is left exactly
as it was at the start of the feed loop — it is only updated after the
whole input is consumed — no descriptor for the new input exists, and the
bytes already appended to the sink are kept. -/
theorem C9_feed_failure_preserves_uc (w : Writer) (len : Nat) (env : WriteEnv)
    (eb : String) (w' : Writer) (eb' : String) (ds : List Diag)
    (hl : env.lockOk = true) (hu : env.unlockOk = true)
    (hef : w.frame_uc ≥ w.min_frame_size →
      ∃ w1 ds1, end_frame w env.ef = some (true, w1, ds1))
    (h : nio_archive_write w len env eb = some (false, w', eb', ds)) :
    w'.frame_uc = (if w.frame_uc ≥ w.min_frame_size then 0 else w.frame_uc) ∧
    (w.frame_uc ≥ w.min_frame_size →
      ∃ c, w'.fl = w.fl ++ [⟨c, w.frame_uc, CHECKSUM_SENTINEL⟩]) ∧
    (¬ w.frame_uc ≥ w.min_frame_size → w'.fl = w.fl) ∧
    w.sinkBytes ≤ w'.sinkBytes := by
  obtain ⟨h1, h2, h3, -, h5⟩ := write_fail_in_loop_spec _ _ _ _ _ _ _ hl hu hef h
  exact ⟨h1, h2, h3, h5⟩

/-- C9 witness: a below-threshold write whose first compressor call errors
leaves the fresh session's `frame_uc` at 0 and the log empty. -/
theorem C9_feed_failure_preserves_uc_witness :
    (freshWriter 5).frame_uc =
      (if (freshWriter 5).frame_uc ≥ (freshWriter 5).min_frame_size then 0
       else (freshWriter 5).frame_uc) ∧
    ((freshWriter 5).frame_uc ≥ (freshWriter 5).min_frame_size →
      ∃ c, (freshWriter 5).fl = (freshWriter 5).fl ++
        [⟨c, (freshWriter 5).frame_uc, CHECKSUM_SENTINEL⟩]) ∧
    (¬ (freshWriter 5).frame_uc ≥ (freshWriter 5).min_frame_size →
      (freshWriter 5).fl = (freshWriter 5).fl) ∧
    (freshWriter 5).sinkBytes ≤ (freshWriter 5).sinkBytes :=
  C9_feed_failure_preserves_uc (freshWriter 5) 7
    ⟨true, cleanEFEnv, true, [CompressStep.err], true⟩ "" (freshWriter 5) ""
    [⟨Chan.stderr, "nio_archive_write: compress"⟩]
    rfl rfl (fun h5 => absurd h5 (by decide)) rfl

/-- C10: no public operation ever writes the caller-supplied `errbuf` —
each returns it exactly as passed, on success and on every failure path —
and every diagnostic any of them emits goes to the standard error
stream. -/
theorem C10_errbuf_untouched :
    (∀ (m : Nat) (env : OpenEnv) (eb : String),
      (nio_archive_writer_open m env eb).errbuf = eb ∧
      ∀ d ∈ (nio_archive_writer_open m env eb).diags, d.chan = Chan.stderr) ∧
    (∀ (w : Writer) (len : Nat) (env : WriteEnv) (eb : String) (b : Bool)
        (w' : Writer) (eb' : String) (ds : List Diag),
      nio_archive_write w len env eb = some (b, w', eb', ds) →
      eb' = eb ∧ ∀ d ∈ ds, d.chan = Chan.stderr) ∧
    (∀ (w : Writer) (env : CloseEnv) (eb : String) (b : Bool) (w' : Writer)
        (eb' : String) (ds : List Diag),
      nio_archive_writer_close w env eb = some (b, w', eb', ds) →
      eb' = eb ∧ ∀ d ∈ ds, d.chan = Chan.stderr) :=
  ⟨open_frame_effects, write_frame_effects, close_frame_effects⟩

/-- C10 witness: a write whose lock acquisition fails returns the caller's
buffer unchanged and reports only to the standard error stream. -/
theorem C10_errbuf_untouched_witness :
    "boo" = "boo" ∧
    ∀ d ∈ [(⟨Chan.stderr, "nio_archive_write: lock mutex"⟩ : Diag)],
      d.chan = Chan.stderr :=
  C10_errbuf_untouched.2.1 (freshWriter 3) 4
    ⟨false, cleanEFEnv, true, [], true⟩ "boo" false (freshWriter 3) "boo"
    [⟨Chan.stderr, "nio_archive_write: lock mutex"⟩] rfl

end LibZseek
